import Mathlib

/-!
Shallow embedding of the pairing, classification and JSON-recovery heuristics of the
tutor-ai-database repository (organize_documents.py, quick_organize_files.py,
organize_question_solution_pairs.py, streamlined_education_pdf_to_json.py), together
with theorems settling the frozen claims about them.

Python regex character classes are embedded in their ASCII fragment, which covers all
keyword lists and all concrete inputs considered here.
-/

/-- ASCII fragment of the Python regex class w: letters, digits and underscore. -/
def isWordChar (c : Char) : Bool := c.isAlphanum || c = '_'

/-- ASCII fragment of the Python regex class s (whitespace). -/
def isPySpace (c : Char) : Bool :=
  c = ' ' || c = '\t' || c = '\n' || c = '\r' || c = '\x0b' || c = '\x0c'

/-- The delimiter alternation underscore-or-whitespace-or-hyphen used by the
keyword-stripping patterns in calculate_filename_similarity. -/
def isDelimChar (c : Char) : Bool := c = '_' || isPySpace c || c = '-'

/-- str.lower (ASCII fragment). -/
def lowerStr (s : String) : String := String.mk (s.data.map Char.toLower)

def basenameAux : List Char → List Char → List Char
  | [], acc => acc.reverse
  | c :: cs, acc => if c = '/' then basenameAux cs [] else basenameAux cs (c :: acc)

/-- os.path.basename: the part of the path after the last slash. -/
def basename (s : String) : String := String.mk (basenameAux s.data [])

def lastDotIdx : List Char → Nat → Option Nat → Option Nat
  | [], _, acc => acc
  | c :: cs, i, acc => lastDotIdx cs (i + 1) (if c = '.' then some i else acc)

/-- First component of os.path.splitext: the name with its extension removed.
The extension starts at the last dot, unless every character before that dot is
itself a dot (Python keeps leading-dot names whole). -/
def splitextBase (s : String) : String :=
  match lastDotIdx s.data 0 none with
  | some i =>
      if (s.data.take i).any (fun c => decide (c ≠ '.')) then String.mk (s.data.take i)
      else s
  | none => s

/-- Case-insensitive literal match of a (lowercase) keyword at the head of the
subject; returns the remainder on success. -/
def kwMatchAt : List Char → List Char → Option (List Char)
  | [], s => some s
  | _ :: _, [] => none
  | k :: ks, c :: cs => if c.toLower = k then kwMatchAt ks cs else none

def wbSearchAux (kw : List Char) : List Char → Bool → Bool
  | [], _ => false
  | c :: cs, prevWord =>
    (if prevWord then false
     else
       match kwMatchAt kw (c :: cs) with
       | some [] => true
       | some (r :: _) => !(isWordChar r)
       | none => false)
    || wbSearchAux kw cs (isWordChar c)

/-- re.search of a word-boundary-anchored keyword pattern: the keyword (which
starts and ends in word characters) must be preceded and followed by a
non-word character or the string edge. -/
def reSearchWordKw (kw : String) (lowerName : List Char) : Bool :=
  wbSearchAux kw.data lowerName false

/-- Solution keyword list of is_solution_file in streamlined_education_pdf_to_json.py
and organize_documents.py (identical in both files). -/
def solution_keywords : List String :=
  ["solution", "solutions", "soln", "solns", "sol", "sols",
   "answer", "answers", "ans", "anss",
   "worked", "worked example", "worked examples",
   "key", "keys", "answer key", "answer keys",
   "suggested solutions", "suggested solution",
   "tutor", "teacher", "teachers", "tutors"]

/-- is_solution_file of streamlined_education_pdf_to_json.py and
organize_documents.py: word-boundary regex search of each keyword over the
lowercased filename. -/
def is_solution_file (filename : String) : Bool :=
  let lf := (lowerStr filename).data
  solution_keywords.any (fun k => reSearchWordKw k lf)

/-- Question keyword list of is_question_file in streamlined_education_pdf_to_json.py
and organize_documents.py. -/
def question_keywords : List String :=
  ["question", "questions", "qn", "qns",
   "problem", "problems", "exercise", "exercises",
   "worksheet", "worksheets", "assignment", "assignments",
   "practice", "test", "exam", "quiz", "tutorial",
   "student", "package", "revision"]

/-- is_question_file of streamlined_education_pdf_to_json.py and organize_documents.py. -/
def is_question_file (filename : String) : Bool :=
  let lf := (lowerStr filename).data
  question_keywords.any (fun k => reSearchWordKw k lf)

/-- Note keyword list of is_note_file in organize_documents.py. -/
def note_keywords : List String :=
  ["note", "notes", "lecture", "lectures", "summary", "summaries",
   "chapter", "chapters", "topic", "topics", "theory", "concept",
   "learning package", "guide", "handbook", "manual", "reference",
   "cheat sheet", "formula", "definition", "explanation"]

/-- is_note_file of organize_documents.py. -/
def is_note_file (filename : String) : Bool :=
  let lf := (lowerStr filename).data
  note_keywords.any (fun k => reSearchWordKw k lf)

def startsWithChars : List Char → List Char → Bool
  | [], _ => true
  | _ :: _, [] => false
  | n :: ns, c :: cs => n = c && startsWithChars ns cs

def containsSub (needle : List Char) : List Char → Bool
  | [] => startsWithChars needle []
  | c :: cs => startsWithChars needle (c :: cs) || containsSub needle cs

/-- Solution keyword list of is_solution_file in quick_organize_files.py and
organize_question_solution_pairs.py (a shorter list than the regex variant). -/
def quick_solution_keywords : List String :=
  ["solution", "solutions", "soln", "solns", "sol", "sols",
   "answer", "answers", "ans", "anss",
   "worked", "worked example", "worked examples",
   "key", "keys", "answer key", "answer keys"]

/-- is_solution_file of quick_organize_files.py (plain substring containment,
no word boundaries). -/
def quick_is_solution_file (filename : String) : Bool :=
  let lf := (lowerStr filename).data
  quick_solution_keywords.any (fun k => containsSub k.data lf)

/-- Question keyword list of is_question_file in quick_organize_files.py. -/
def quick_question_keywords : List String :=
  ["question", "questions", "qn", "qns",
   "problem", "problems", "exercise", "exercises",
   "worksheet", "worksheets", "assignment", "assignments",
   "practice", "test", "exam", "quiz"]

/-- is_question_file of quick_organize_files.py (plain substring containment). -/
def quick_is_question_file (filename : String) : Bool :=
  let lf := (lowerStr filename).data
  quick_question_keywords.any (fun k => containsSub k.data lf)

/-- Tail of one keyword-stripping match: an optional literal s (greedy), then a
delimiter character or the end of the string. A failed greedy s cannot
backtrack into a successful empty branch because the s itself is not a
delimiter character. -/
def matchTailSub : List Char → Option (List Char)
  | [] => some []
  | c :: cs =>
    if c.toLower = 's' then
      match cs with
      | [] => some []
      | d :: ds => if isDelimChar d then some ds else none
    else if isDelimChar c then some cs else none

/-- One attempted match of the pattern delimiter-or-start, keyword, optional s,
delimiter-or-end at the current position. The start alternative is tried after
the delimiter-character alternatives, mirroring the alternation order. -/
def kwSubMatchAt (kw : List Char) (s : List Char) (atStart : Bool) : Option (List Char) :=
  match s with
  | c :: cs =>
    if isDelimChar c then
      match kwMatchAt kw cs with
      | some rest => matchTailSub rest
      | none =>
        if atStart then
          match kwMatchAt kw (c :: cs) with
          | some rest => matchTailSub rest
          | none => none
        else none
    else
      if atStart then
        match kwMatchAt kw (c :: cs) with
        | some rest => matchTailSub rest
        | none => none
      else none
  | [] => none

/-- re.sub scan: replace every non-overlapping leftmost match of the
keyword-stripping pattern by the empty string, resuming after each match. -/
def subScanKw (kw : List Char) : Nat → Bool → List Char → List Char
  | 0, _, s => s
  | fuel + 1, atStart, s =>
    match kwSubMatchAt kw s atStart with
    | some rest => subScanKw kw fuel false rest
    | none =>
      match s with
      | [] => []
      | c :: cs => c :: subScanKw kw fuel false cs

def removeKeywordSub (kw : String) (s : String) : String :=
  String.mk (subScanKw kw.data (s.data.length + 1) true s.data)

/-- The solution indicators stripped by calculate_filename_similarity. -/
def sim_solution_indicators : List String :=
  ["solution", "solutions", "soln", "solns", "sol", "sols",
   "answer", "answers", "ans", "anss"]

/-- The question indicators stripped by calculate_filename_similarity. -/
def sim_question_indicators : List String :=
  ["question", "questions", "qn", "qns",
   "problem", "problems", "exercise", "exercises"]

/-- The normalization loop of calculate_filename_similarity: the solution
indicators are stripped first, then the question indicators, each by one
re.sub pass over the current string. -/
def stripIndicators (s : String) : String :=
  (sim_solution_indicators ++ sim_question_indicators).foldl
    (fun b k => removeKeywordSub k b) s

def wordRunsAux : List Char → List Char → List String
  | [], acc => if acc.isEmpty then [] else [String.mk acc.reverse]
  | c :: cs, acc =>
    if isWordChar c then wordRunsAux cs (c :: acc)
    else if acc.isEmpty then wordRunsAux cs []
    else String.mk acc.reverse :: wordRunsAux cs []

/-- re.findall of word-character runs, as the set of word tokens of the
normalized name (extension stripped, lowercased, role indicators removed). -/
def simTokens (file : String) : Finset String :=
  (wordRunsAux (stripIndicators (lowerStr (splitextBase file))).data []).toFinset

/-- calculate_filename_similarity of streamlined_education_pdf_to_json.py
(the same text appears in quick_organize_files.py and organize_documents.py):
the overlap of the two normalized token sets divided by the larger set size,
with zero when either side is empty. The exact rational division is written
with Rat.divInt, which equals the field division (Rat.divInt_eq_div) and is
kernel-computable. -/
def calculate_filename_similarity (file1 file2 : String) : ℚ :=
  let words1 := simTokens file1
  let words2 := simTokens file2
  if words1 = ∅ ∨ words2 = ∅ then 0
  else Rat.divInt ((words1 ∩ words2).card : ℤ) ((max words1.card words2.card : ℕ) : ℤ)

/-- The strict solution-bucket test of find_question_solution_pairs in
streamlined_education_pdf_to_json.py: a solution filename that is not also a
question filename (applied to the basename of the path). -/
def strictSolB (f : String) : Bool :=
  is_solution_file (basename f) && !(is_question_file (basename f))

/-- The strict question-bucket test of find_question_solution_pairs. -/
def strictQB (f : String) : Bool :=
  is_question_file (basename f) && !(is_solution_file (basename f))

/-- The state threaded through the two passes of find_question_solution_pairs:
the committed ordered pairs and the paired_files set (as a list, membership by
value). -/
structure PairState where
  pairs : List (String × String)
  paired : List String

/-- The inner best-match scan of the first pass: fold over the question files,
skipping already-paired ones, keeping the best candidate whose similarity
exceeds both the threshold and the best score so far. -/
def findBestAux (t : ℚ) (sol : String) (paired : List String) :
    List String → Option String × ℚ → Option String × ℚ
  | [], acc => acc
  | q :: qs, acc =>
    findBestAux t sol paired qs
      (if q ∈ paired then acc
       else
         let s := calculate_filename_similarity (basename sol) (basename q)
         if t < s ∧ acc.2 < s then (some q, s) else acc)

/-- First pass of find_question_solution_pairs: for each solution file in
order, commit the pair with its best-scoring question file when one clears
the threshold. -/
def pass1 (t : ℚ) (qfiles : List String) : List String → PairState → PairState
  | [], st => st
  | sol :: sols, st =>
    pass1 t qfiles sols
      (if sol ∈ st.paired then st
       else
         match findBestAux t sol st.paired qfiles (none, 0) with
         | (some bm, _) =>
             { pairs := st.pairs ++ [(sol, bm)], paired := sol :: bm :: st.paired }
         | (none, _) => st)

/-- Inner loop of the second pass over the suffix of remaining files after
file1. Only file2 is re-checked against paired_files, exactly as in the
source. -/
def pass2Inner (t : ℚ) (f1 : String) : List String → PairState → PairState
  | [], st => st
  | f2 :: rest, st =>
    pass2Inner t f1 rest
      (if f2 ∈ st.paired then st
       else if t < calculate_filename_similarity (basename f1) (basename f2) then
         if strictSolB f1 = true ∧ strictQB f2 = true then
           { pairs := st.pairs ++ [(f1, f2)], paired := f1 :: f2 :: st.paired }
         else if strictQB f1 = true ∧ strictSolB f2 = true then
           { pairs := st.pairs ++ [(f2, f1)], paired := f1 :: f2 :: st.paired }
         else st
       else st)

/-- Outer loop of the second pass: each remaining file against the files after
it, skipping a file1 already paired at the start of its iteration. -/
def pass2 (t : ℚ) : List String → PairState → PairState
  | [], st => st
  | f1 :: rest, st =>
    if f1 ∈ st.paired then pass2 t rest st
    else pass2 t rest (pass2Inner t f1 rest st)

/-- The state after the first pass of find_question_solution_pairs: the greedy
best-match pass over the strict solution and question buckets. -/
def fqspSt1 (file_list : List String) (t : ℚ) : PairState :=
  pass1 t (file_list.filter (fun f => strictQB f)) (file_list.filter (fun f => strictSolB f))
    ⟨[], []⟩

/-- The remaining files recomputed once after the first pass. -/
def fqspRemaining (file_list : List String) (t : ℚ) : List String :=
  file_list.filter (fun f => !(decide (f ∈ (fqspSt1 file_list t).paired)))

/-- The state after the second similarity pass over the remaining files. -/
def fqspSt2 (file_list : List String) (t : ℚ) : PairState :=
  pass2 t (fqspRemaining file_list t) (fqspSt1 file_list t)

/-- find_question_solution_pairs of streamlined_education_pdf_to_json.py:
greedy best-match pass over the strict solution/question buckets, then a
second similarity pass over the remaining files, returning the ordered pairs
and the unpaired files (the files not in paired_files, in input order). -/
def find_question_solution_pairs (file_list : List String) (t : ℚ) :
    List (String × String) × List String :=
  ((fqspSt2 file_list t).pairs,
    file_list.filter (fun f => !(decide (f ∈ (fqspSt2 file_list t).paired))))

/-- The files mentioned by a pair list, in order. -/
def flatElems : List (String × String) → List String
  | [] => []
  | p :: ps => p.1 :: p.2 :: flatElems ps

/-- The invariant threaded through both passes: paired_files is exactly the
set of files mentioned by the committed pairs, and every committed pair
consists of an input solution-bucket file first and an input question-bucket
file second. -/
def PairInv (file_list : List String) (st : PairState) : Prop :=
  (∀ f, f ∈ st.paired ↔ f ∈ flatElems st.pairs) ∧
  (∀ p ∈ st.pairs, p.1 ∈ file_list ∧ p.2 ∈ file_list ∧
      strictSolB p.1 = true ∧ strictQB p.2 = true)

/-- The newline-free prefix used to model the regex dot, which matches any
character except a newline. -/
def nlFreePrefix (l : List Char) : List Char := l.takeWhile (fun c => decide (c ≠ '\n'))

/-- Does the pattern occur at some position such that the given check holds of
the text after the occurrence? Models re.search for patterns of the form
literal-then-context. -/
def occScan (pat : List Char) (check : List Char → Bool) : List Char → Bool
  | [] => startsWithChars pat [] && check []
  | c :: cs =>
    (startsWithChars pat (c :: cs) && check ((c :: cs).drop pat.length)) || occScan pat check cs

/-- The secondary pattern bmq-or-apq followed (within the line) by sol, from
classify_document in organize_documents.py. -/
def od_pat_sol_after (l : List Char) : Bool :=
  occScan "bmq".data (fun rest => containsSub "sol".data (nlFreePrefix rest)) l
  || occScan "apq".data (fun rest => containsSub "sol".data (nlFreePrefix rest)) l

/-- The secondary pattern bmq-or-apq with a negative lookahead excluding a
following sol on the same line. -/
def od_pat_no_sol_after (l : List Char) : Bool :=
  occScan "bmq".data (fun rest => !(containsSub "sol".data (nlFreePrefix rest))) l
  || occScan "apq".data (fun rest => !(containsSub "sol".data (nlFreePrefix rest))) l

/-- The secondary pattern ch-or-chapter-or-topic followed (within the line) by
a digit. -/
def od_pat_chapter_digit (l : List Char) : Bool :=
  occScan "ch".data (fun rest => (nlFreePrefix rest).any Char.isDigit) l
  || occScan "chapter".data (fun rest => (nlFreePrefix rest).any Char.isDigit) l
  || occScan "topic".data (fun rest => (nlFreePrefix rest).any Char.isDigit) l

/-- The secondary pattern tutor-or-teacher-or-lecturer (plain substring search). -/
def od_pat_tutor (l : List Char) : Bool :=
  containsSub "tutor".data l || containsSub "teacher".data l || containsSub "lecturer".data l

/-- The fallthrough branch of classify_document in organize_documents.py,
reached when no keyword category matched: secondary filename patterns, then
unknown. -/
def classify_fallback (filename : String) : String :=
  let lf := (lowerStr filename).data
  if od_pat_sol_after lf then "solution"
  else if od_pat_no_sol_after lf then "question_paper"
  else if od_pat_chapter_digit lf then "standalone_note"
  else if od_pat_tutor lf then "notes_with_solutions"
  else "unknown"

/-- classify_document of organize_documents.py: the keyword-combination
decision chain, falling through to the secondary patterns. -/
def classify_document (filename : String) : String :=
  let isSol := is_solution_file filename
  let isQ := is_question_file filename
  let isNote := is_note_file filename
  if isSol && isQ then "combined_question_solution"
  else if isSol && isNote then "notes_with_solutions"
  else if isQ && isNote then "notes_with_questions"
  else if isSol then "solution"
  else if isQ then "question_paper"
  else if isNote then "standalone_note"
  else classify_fallback filename

/-- JSON values, the shape of what json.loads returns at this call site
(numbers as exact rationals; the float geometry of Python is immaterial to
the recovery-structure claims). -/
inductive JValue where
  | null : JValue
  | bool (b : Bool) : JValue
  | num (q : ℚ) : JValue
  | str (s : String) : JValue
  | arr (elems : List JValue) : JValue
  | obj (fields : List (String × JValue)) : JValue

/-- Python dict assignment: overwrite in place when the key exists, append
otherwise. -/
def setOrReplace : List (String × JValue) → String → JValue → List (String × JValue)
  | [], k, v => [(k, v)]
  | (k2, v2) :: rest, k, v =>
    if k2 = k then (k2, v) :: rest else (k2, v2) :: setOrReplace rest k v

def lookupKey : List (String × JValue) → String → Option JValue
  | [], _ => none
  | (k2, v) :: rest, k => if k2 = k then some v else lookupKey rest k

/-- Python key-membership test on an object value. -/
def hasKey (k : String) : JValue → Bool
  | .obj fs => fs.any (fun kv => decide (kv.1 = k))
  | _ => false

/-- JSON whitespace accepted between tokens by json.loads. -/
def jsonWs (c : Char) : Bool := c = ' ' || c = '\t' || c = '\n' || c = '\r'

def skipJWs (l : List Char) : List Char := l.dropWhile jsonWs

def consFst (c : Char) (r : Option (List Char × List Char)) : Option (List Char × List Char) :=
  r.map (fun p => (c :: p.1, p.2))

def hexVal (c : Char) : Option Nat :=
  if c.isDigit then some (c.toNat - 48)
  else if 'a' ≤ c ∧ c ≤ 'f' then some (c.toNat - 87)
  else if 'A' ≤ c ∧ c ≤ 'F' then some (c.toNat - 55)
  else none

/-- Body of a JSON string literal after the opening quote: content characters
and the remainder after the closing quote. Strict mode: raw control
characters are rejected; unicode escapes map through Char.ofNat (lone
surrogates, which Lean characters cannot carry, are out of scope). -/
def parseJStr : List Char → Option (List Char × List Char)
  | [] => none
  | '"' :: cs => some ([], cs)
  | '\\' :: 'u' :: h1 :: h2 :: h3 :: h4 :: rest =>
    match hexVal h1, hexVal h2, hexVal h3, hexVal h4 with
    | some a, some b, some c, some d =>
        consFst (Char.ofNat (((a * 16 + b) * 16 + c) * 16 + d)) (parseJStr rest)
    | _, _, _, _ => none
  | '\\' :: e :: rest =>
    if e = '"' then consFst '"' (parseJStr rest)
    else if e = '\\' then consFst '\\' (parseJStr rest)
    else if e = '/' then consFst '/' (parseJStr rest)
    else if e = 'b' then consFst '\x08' (parseJStr rest)
    else if e = 'f' then consFst '\x0c' (parseJStr rest)
    else if e = 'n' then consFst '\n' (parseJStr rest)
    else if e = 'r' then consFst '\r' (parseJStr rest)
    else if e = 't' then consFst '\t' (parseJStr rest)
    else none
  | c :: cs => if c.toNat < 32 then none else consFst c (parseJStr cs)

def digitsToNat (ds : List Char) : Nat := ds.foldl (fun n c => n * 10 + (c.toNat - 48)) 0

/-- A JSON numeral: optional minus, integer part without spurious leading
zeros, optional fraction, optional exponent; its exact rational value. -/
def parseJNum (l : List Char) : Option (ℚ × List Char) :=
  let (neg, l1) := match l with
    | '-' :: r => (true, r)
    | _ => (false, l)
  let intDs := l1.takeWhile Char.isDigit
  if intDs.isEmpty then none
  else if 1 < intDs.length ∧ intDs.headD '0' = '0' then none
  else
    let l2 := l1.drop intDs.length
    let (fracDs, l3) := match l2 with
      | '.' :: r => (r.takeWhile Char.isDigit, r.drop (r.takeWhile Char.isDigit).length)
      | _ => ([], l2)
    if l2.headD ' ' = '.' ∧ fracDs.isEmpty then none
    else
      let expPart : Option (Bool × List Char × List Char) := match l3 with
        | 'e' :: '-' :: r => some (true, r.takeWhile Char.isDigit, r.drop (r.takeWhile Char.isDigit).length)
        | 'E' :: '-' :: r => some (true, r.takeWhile Char.isDigit, r.drop (r.takeWhile Char.isDigit).length)
        | 'e' :: '+' :: r => some (false, r.takeWhile Char.isDigit, r.drop (r.takeWhile Char.isDigit).length)
        | 'E' :: '+' :: r => some (false, r.takeWhile Char.isDigit, r.drop (r.takeWhile Char.isDigit).length)
        | 'e' :: r => some (false, r.takeWhile Char.isDigit, r.drop (r.takeWhile Char.isDigit).length)
        | 'E' :: r => some (false, r.takeWhile Char.isDigit, r.drop (r.takeWhile Char.isDigit).length)
        | _ => none
      match expPart with
      | some (_, expDs, _) =>
        if expDs.isEmpty then none
        else
          match expPart with
          | some (expNeg, _, l4) =>
            let mant : ℤ := (digitsToNat intDs * 10 ^ fracDs.length + digitsToNat fracDs : ℕ)
            let mant2 : ℤ := if neg then -mant else mant
            let e := digitsToNat expDs
            let num : ℤ := if expNeg then mant2 else mant2 * (10 : ℤ) ^ e
            let den : ℤ := if expNeg then (10 : ℤ) ^ (fracDs.length + e) else (10 : ℤ) ^ fracDs.length
            some (Rat.divInt num den, l4)
          | none => none
      | none =>
        let mant : ℤ := (digitsToNat intDs * 10 ^ fracDs.length + digitsToNat fracDs : ℕ)
        let mant2 : ℤ := if neg then -mant else mant
        some (Rat.divInt mant2 ((10 : ℤ) ^ fracDs.length), l3)

mutual

/-- Recursive-descent model of json.loads on one value, fueled. -/
def parseV : Nat → List Char → Option (JValue × List Char)
  | 0, _ => none
  | fuel + 1, l =>
    match l with
    | [] => none
    | '{' :: rest => parseFields fuel (skipJWs rest) [] true
    | '[' :: rest => parseItems fuel (skipJWs rest) [] true
    | '"' :: rest => (parseJStr rest).map (fun p => (JValue.str (String.mk p.1), p.2))
    | 't' :: 'r' :: 'u' :: 'e' :: rest => some (JValue.bool true, rest)
    | 'f' :: 'a' :: 'l' :: 's' :: 'e' :: rest => some (JValue.bool false, rest)
    | 'n' :: 'u' :: 'l' :: 'l' :: rest => some (JValue.null, rest)
    | c :: _ =>
      if c = '-' ∨ c.isDigit then (parseJNum l).map (fun p => (JValue.num p.1, p.2))
      else none

/-- Object members; a duplicate key overwrites the earlier value in place, as
in a Python dict. -/
def parseFields : Nat → List Char → List (String × JValue) → Bool →
    Option (JValue × List Char)
  | 0, _, _, _ => none
  | fuel + 1, l, acc, first =>
    match l with
    | '}' :: rest => if first then some (JValue.obj acc, rest) else none
    | '"' :: rest =>
      match parseJStr rest with
      | none => none
      | some (kcs, r1) =>
        match skipJWs r1 with
        | ':' :: r2 =>
          match parseV fuel (skipJWs r2) with
          | none => none
          | some (v, r3) =>
            match skipJWs r3 with
            | ',' :: r4 => parseFields fuel (skipJWs r4) (setOrReplace acc (String.mk kcs) v) false
            | '}' :: r4 => some (JValue.obj (setOrReplace acc (String.mk kcs) v), r4)
            | _ => none
        | _ => none
    | _ => none

def parseItems : Nat → List Char → List JValue → Bool → Option (JValue × List Char)
  | 0, _, _, _ => none
  | fuel + 1, l, acc, first =>
    match l with
    | ']' :: rest => if first then some (JValue.arr acc.reverse, rest) else none
    | _ =>
      match parseV fuel l with
      | none => none
      | some (v, r1) =>
        match skipJWs r1 with
        | ',' :: r2 => parseItems fuel (skipJWs r2) (v :: acc) false
        | ']' :: r2 => some (JValue.arr (v :: acc).reverse, r2)
        | _ => none

end

/-- json.loads: a full-string parse (only trailing whitespace may remain). -/
def json_loads (s : String) : Option JValue :=
  match parseV (2 * s.data.length + 4) (skipJWs s.data) with
  | some (v, rest) => if (skipJWs rest).isEmpty then some v else none
  | none => none

/-- str.strip (ASCII whitespace fragment). -/
def pyStrip (s : String) : String :=
  String.mk (((s.data.dropWhile isPySpace).reverse.dropWhile isPySpace).reverse)

def findSubAux (needle : List Char) : List Char → Nat → Option Nat
  | [], i => if startsWithChars needle [] then some i else none
  | c :: cs, i =>
    if startsWithChars needle (c :: cs) then some i else findSubAux needle cs (i + 1)

/-- str.find: index of the first occurrence of a substring. -/
def findSub (needle hay : List Char) : Option Nat := findSubAux needle hay 0

def lastIdxOfAux (c : Char) : List Char → Nat → Option Nat → Option Nat
  | [], _, acc => acc
  | x :: xs, i, acc => lastIdxOfAux c xs (i + 1) (if x = c then some i else acc)

/-- str.rfind of a single character. -/
def lastIdxOf (c : Char) (l : List Char) : Option Nat := lastIdxOfAux c l 0 none

/-- extract_json_from_text of streamlined_education_pdf_to_json.py on a string
argument (the call site always passes the model output string): try the
fenced block, then the single-backtick span, then the first-to-last brace
span, returning the first successful parse. -/
def extract_json_from_text (text : String) : Option JValue :=
  let l := text.data
  if l.isEmpty then none
  else
    let b1 : Option JValue :=
      match findSub "```json".data l with
      | some i =>
        match findSub "```".data (l.drop (i + 7)) with
        | some j => json_loads (pyStrip (String.mk ((l.drop (i + 7)).take j)))
        | none => none
      | none => none
    match b1 with
    | some v => some v
    | none =>
      let b2 : Option JValue :=
        match findSub "`\x7b".data l with
        | some i =>
          match findSub "\x7d`".data (l.drop (i + 1)) with
          | some j => json_loads (pyStrip (String.mk ((l.drop (i + 1)).take (j + 1))))
          | none => none
        | none => none
      match b2 with
      | some v => some v
      | none =>
        match findSub "\x7b".data l, lastIdxOf '\x7d' l with
        | some i, some j =>
          if i < j then json_loads (String.mk ((l.drop i).take (j - i + 1))) else none
        | _, _ => none

/-- Removal of model thinking blocks: every minimal span from a think opener
to the next think closer is deleted, scanning left to right. -/
def removeThinkAux : Nat → List Char → List Char
  | 0, s => s
  | fuel + 1, s =>
    match findSub "<think>".data s with
    | none => s
    | some i =>
      match findSub "</think>".data (s.drop (i + 7)) with
      | none => s
      | some j => s.take i ++ removeThinkAux fuel (s.drop (i + 7 + j + 8))

/-- The first fenced code block (with an optional json tag and leading
whitespace skipped greedily): its contents up to the next fence. -/
def extractFence (s : List Char) : Option (List Char) :=
  match findSub "```".data s with
  | none => none
  | some i =>
    let after := s.drop (i + 3)
    let after2 := if startsWithChars "json".data after then after.drop 4 else after
    let content := after2.dropWhile isPySpace
    match findSub "```".data content with
    | some j => some (content.take j)
    | none => none

/-- str.replace of a doubled backslash by a single one, left to right and
non-overlapping. -/
def collapseBackslashes : List Char → List Char
  | '\\' :: '\\' :: rest => '\\' :: collapseBackslashes rest
  | c :: rest => c :: collapseBackslashes rest
  | [] => []

/-- Generic re.sub scan for the deterministic patterns below: each match
(which always consumes at least one character) is replaced and scanning
resumes after it. -/
def subScanGeneric (matchAt : List Char → Option (List Char × List Char)) :
    Nat → List Char → List Char
  | 0, s => s
  | _ + 1, [] => []
  | fuel + 1, c :: cs =>
    match matchAt (c :: cs) with
    | some (repl, rest) => repl ++ subScanGeneric matchAt fuel rest
    | none => c :: subScanGeneric matchAt fuel cs

/-- One match of the missing-comma-between-array-elements pattern: a
word-run-plus-quote or lone quote, a whitespace run containing a newline,
then a quote or word run; the comma and one newline are inserted between the
two captured groups. -/
def commas1MatchAt (s : List Char) : Option (List Char × List Char) :=
  match s with
  | [] => none
  | c :: _ =>
    let g1r : Option (List Char × List Char) :=
      if isWordChar c then
        let run := s.takeWhile isWordChar
        match s.drop run.length with
        | '"' :: r => some (run ++ ['"'], r)
        | _ => none
      else if c = '"' then some (['"'], s.drop 1)
      else none
    match g1r with
    | none => none
    | some (g1, r1) =>
      let W := r1.takeWhile isPySpace
      if W.any (fun x => decide (x = '\n')) then
        match r1.drop W.length with
        | '"' :: r3 => some (g1 ++ [',', '\n', '"'], r3)
        | c2 :: r3 =>
          if isWordChar c2 then
            let run2 := c2 :: r3.takeWhile isWordChar
            some (g1 ++ [',', '\n'] ++ run2, (c2 :: r3).drop run2.length)
          else none
        | [] => none
      else none

/-- Common tail of the missing-comma-between-properties pattern: a whitespace
run containing a newline, then an opening quote. -/
def commas2Tail (g1 : List Char) (r1 : List Char) : Option (List Char × List Char) :=
  let W := r1.takeWhile isPySpace
  if W.any (fun x => decide (x = '\n')) then
    match r1.drop W.length with
    | '"' :: r3 => some (g1 ++ [',', '\n', '"'], r3)
    | _ => none
  else none

/-- One match of the missing-comma-between-properties pattern: a scalar
(true, false, null, a quoted string or a digit run) and a following quoted
key separated only by whitespace containing a newline. -/
def commas2MatchAt (s : List Char) : Option (List Char × List Char) :=
  (if startsWithChars "true".data s then commas2Tail "true".data (s.drop 4) else none)
  <|> (if startsWithChars "false".data s then commas2Tail "false".data (s.drop 5) else none)
  <|> (if startsWithChars "null".data s then commas2Tail "null".data (s.drop 4) else none)
  <|> (match s with
       | '"' :: r =>
         let Q := r.takeWhile (fun x => decide (x ≠ '"'))
         match r.drop Q.length with
         | '"' :: r2 => commas2Tail ('"' :: (Q ++ ['"'])) r2
         | _ => none
       | _ => none)
  <|> (let D := s.takeWhile Char.isDigit
       if D.isEmpty then none else commas2Tail D (s.drop D.length))

/-- One match of the trailing-comma pattern: a comma, optional whitespace and
a closing bracket; only the bracket is kept. -/
def trailingCommaMatchAt (s : List Char) : Option (List Char × List Char) :=
  match s with
  | ',' :: r =>
    let W := r.takeWhile isPySpace
    match r.drop W.length with
    | ']' :: r2 => some ([']'], r2)
    | '\x7d' :: r2 => some (['\x7d'], r2)
    | _ => none
  | _ => none

/-- One match of the bare-key pattern: a brace or comma, whitespace, an
identifier and a colon; the identifier is wrapped in quotes and the
whitespace before the colon dropped. -/
def bareKeyMatchAt (s : List Char) : Option (List Char × List Char) :=
  match s with
  | [] => none
  | c :: r =>
    if c = '\x7b' ∨ c = ',' then
      let W := r.takeWhile isPySpace
      match r.drop W.length with
      | c2 :: r2 =>
        if c2.isAlpha ∨ c2 = '_' then
          let idRest := r2.takeWhile isWordChar
          let r3 := r2.drop idRest.length
          let W2 := r3.takeWhile isPySpace
          match r3.drop W2.length with
          | ':' :: r4 =>
            some ((c :: W) ++ ['"'] ++ (c2 :: idRest) ++ ['"', ':'], r4)
          | _ => none
        else none
      | [] => none
    else none

/-- One match of the stray-backslash pattern: a non-backslash, a backslash and
a character that does not begin a recognized escape; the backslash is doubled. -/
def strayBackslashMatchAt (s : List Char) : Option (List Char × List Char) :=
  match s with
  | c1 :: '\\' :: c2 :: rest =>
    if c1 ≠ '\\' ∧ ¬(c2 = '"' ∨ c2 = '\\' ∨ c2 = '/' ∨ c2 = 'b' ∨ c2 = 'f' ∨
        c2 = 'n' ∨ c2 = 'r' ∨ c2 = 't' ∨ c2 = 'u') then
      some ([c1, '\\', '\\', c2], rest)
    else none
  | _ => none

/-- fix_json_string of streamlined_education_pdf_to_json.py on a string
argument: strip thinking blocks, prefer the first fenced block, collapse
doubled backslashes, insert missing commas, drop trailing commas, quote bare
keys, double stray backslashes, then strip and wrap in braces if needed. -/
def fix_json_string_str (s : String) : String :=
  let l1 := removeThinkAux (s.data.length + 1) s.data
  let l2 := match extractFence l1 with | some b => b | none => l1
  let l3 := collapseBackslashes l2
  let l4 := subScanGeneric commas1MatchAt (l3.length + 1) l3
  let l5 := subScanGeneric commas2MatchAt (l4.length + 1) l4
  let l6 := subScanGeneric trailingCommaMatchAt (l5.length + 1) l5
  let l7 := subScanGeneric bareKeyMatchAt (l6.length + 1) l6
  let l8 := subScanGeneric strayBackslashMatchAt (l7.length + 1) l7
  let td := (pyStrip (String.mk l8)).data
  let td2 := if startsWithChars ['\x7b'] td then td else '\x7b' :: td
  let td3 := if td2.getLast? = some '\x7d' then td2 else td2 ++ ['\x7d']
  String.mk td3

/-- fix_json_string as called on the result of extract_json_from_text, which
is either nothing or an already-parsed value: a falsy argument yields the
empty object text, a nonempty string runs the repair pipeline, and any other
truthy value raises a TypeError inside re.sub (modelled as none), which the
surrounding handler turns into the fallback document. -/
def fix_json_string_dyn : Option JValue → Option String
  | none => some "\x7b\x7d"
  | some v =>
    match v with
    | .str s => if s.data.isEmpty then some "\x7b\x7d" else some (fix_json_string_str s)
    | .null => some "\x7b\x7d"
    | .bool b => if b then none else some "\x7b\x7d"
    | .num q => if q = 0 then some "\x7b\x7d" else none
    | .arr xs => if xs.isEmpty then some "\x7b\x7d" else none
    | .obj fs => if fs.isEmpty then some "\x7b\x7d" else none

/-- One attempt of the content-subobject pattern at the current position: the
quoted content key, a colon, and a brace group without nested closers. -/
def contentMatchAt (s : List Char) : Option (List Char) :=
  if startsWithChars "\"content\"".data s then
    let r1 := (s.drop 9).dropWhile isPySpace
    match r1 with
    | ':' :: r2 =>
      match r2.dropWhile isPySpace with
      | '\x7b' :: r4 =>
        let Q := r4.takeWhile (fun x => decide (x ≠ '\x7d'))
        match r4.drop Q.length with
        | '\x7d' :: _ => some ('\x7b' :: (Q ++ ['\x7d']))
        | _ => none
      | _ => none
    | _ => none
  else none

/-- re.search for the content subobject: the leftmost successful position. -/
def contentSearchAux : List Char → Option (List Char)
  | [] => none
  | c :: cs =>
    match contentMatchAt (c :: cs) with
    | some cap => some cap
    | none => contentSearchAux cs

/-- The class letters-or-whitespace of the scraped definition patterns. -/
def isAlphaSpace (c : Char) : Bool := c.isAlpha || isPySpace c

/-- Tail shared by the scraped sentence patterns: after a maximal run W of the
separator class (of required minimum length), a nonempty non-dot group ending
in a literal dot. When the dot follows W immediately, the greedy separator
gives back exactly one character to the group. -/
def dotGroupAfter (W : List Char) (minWs : Nat) (r : List Char) : Option (List Char × List Char) :=
  if W.length < minWs then none
  else
    match r with
    | '.' :: r2 =>
      if minWs + 1 ≤ W.length then
        match W.getLast? with
        | some w => some ([w, '.'], r2)
        | none => none
      else none
    | [] => none
    | _ =>
      let T := r.takeWhile (fun x => decide (x ≠ '.'))
      match r.drop T.length with
      | '.' :: r2 => some (T ++ ['.'], r2)
      | _ => none

/-- One match of the capitalized-term-colon-definition pattern. -/
def p1MatchAt (s : List Char) : Option ((String × String) × List Char) :=
  match s with
  | [] => none
  | c :: cs =>
    if c.isUpper then
      let R := cs.takeWhile isAlphaSpace
      if R.isEmpty then none
      else
        match cs.drop R.length with
        | ':' :: r1 =>
          let W := r1.takeWhile isPySpace
          match dotGroupAfter W 0 (r1.drop W.length) with
          | some (g2, rest) =>
            some ((pyStrip (String.mk (c :: R)), pyStrip (String.mk g2)), rest)
          | none => none
        | _ => none
    else none

def tryKs {α : Type} (f : Nat → Option α) : Nat → Option α
  | 0 => none
  | k + 1 =>
    match f (k + 1) with
    | some x => some x
    | none => tryKs f k

/-- Tail of the capitalized-term-is-definition pattern after a candidate split
of the greedy term run at length k. -/
def p2TailAt (cs : List Char) (k : Nat) : Option (List Char × List Char) :=
  let rem := cs.drop k
  let W1 := rem.takeWhile isPySpace
  if W1.isEmpty then none
  else
    let r := rem.drop W1.length
    if startsWithChars "is".data r then
      let r2 := r.drop 2
      let W2 := r2.takeWhile isPySpace
      dotGroupAfter W2 1 (r2.drop W2.length)
    else none

/-- One match of the capitalized-term-is-definition pattern; the greedy term
run backtracks from its maximal length. -/
def p2MatchAt (s : List Char) : Option ((String × String) × List Char) :=
  match s with
  | [] => none
  | c :: cs =>
    if c.isUpper then
      let R := cs.takeWhile isAlphaSpace
      match tryKs (fun k => (p2TailAt cs k).map (fun p => (k, p))) R.length with
      | some (k, g2, rest) =>
        some ((pyStrip (String.mk (c :: cs.take k)), pyStrip (String.mk g2)), rest)
      | none => none
    else none

/-- One match of the definition-keyword pattern. -/
def p3MatchAt (s : List Char) : Option (String × List Char) :=
  if startsWithChars "Definition".data s then
    let rem := s.drop 10
    let C := rem.takeWhile (fun x => x = ':' || isPySpace x)
    match dotGroupAfter C 1 (rem.drop C.length) with
    | some (g, rest) => some (pyStrip (String.mk g), rest)
    | none => none
  else none

/-- One match of the simple-equation pattern: a letter-led left side without
equals signs or newlines, an equals sign, and the rest of the line. -/
def p4MatchAt (s : List Char) : Option ((String × String) × List Char) :=
  match s with
  | [] => none
  | c :: cs =>
    if c.isAlpha then
      let R := cs.takeWhile (fun x => decide (x ≠ '=') && decide (x ≠ '\n'))
      if R.isEmpty then none
      else
        match cs.drop R.length with
        | '=' :: r1 =>
          let G2 := r1.takeWhile (fun x => decide (x ≠ '\n'))
          if G2.isEmpty then none
          else some ((pyStrip (String.mk (c :: R)), pyStrip (String.mk G2)), r1.drop G2.length)
        | _ => none
    else none

/-- One match of the numbered-question pattern ending in a question mark. -/
def p5MatchAt (s : List Char) : Option (String × List Char) :=
  let D := s.takeWhile Char.isDigit
  if D.isEmpty then none
  else
    match s.drop D.length with
    | '.' :: r1 =>
      let W := r1.takeWhile isPySpace
      let T := (r1.drop W.length).takeWhile (fun x => decide (x ≠ '?'))
      if W.isEmpty ∧ T.isEmpty then none
      else
        match (r1.drop W.length).drop T.length with
        | '?' :: rest => some (pyStrip (String.mk (D ++ ['.'] ++ W ++ T ++ ['?'])), rest)
        | _ => none
    | _ => none

/-- One match of the question-keyword pattern ending in a dot; the greedy
digit run gives back its last digit when the dot follows immediately. -/
def p6MatchAt (s : List Char) : Option (String × List Char) :=
  if startsWithChars "Question".data s then
    let r0 := s.drop 8
    let W := r0.takeWhile isPySpace
    let r1 := r0.drop W.length
    let D := r1.takeWhile Char.isDigit
    if D.isEmpty then none
    else
      let r2 := r1.drop D.length
      let U := r2.takeWhile (fun x => decide (x ≠ '.'))
      if U.isEmpty then
        match r2 with
        | '.' :: rest =>
          if 2 ≤ D.length then
            some (pyStrip (String.mk ("Question".data ++ W ++ D ++ ['.'])), rest)
          else none
        | _ => none
      else
        match r2.drop U.length with
        | '.' :: rest =>
          some (pyStrip (String.mk ("Question".data ++ W ++ D ++ U ++ ['.'])), rest)
        | _ => none
  else none

/-- re.findall driver: collect the replacements of each non-overlapping
leftmost match. -/
def scanFindall {α : Type} (matchAt : List Char → Option (α × List Char)) :
    Nat → List Char → List α
  | 0, _ => []
  | _ + 1, [] => []
  | fuel + 1, c :: cs =>
    match matchAt (c :: cs) with
    | some (a, rest) => a :: scanFindall matchAt fuel rest
    | none => scanFindall matchAt fuel cs

def conceptOfPair (p : String × String) : JValue :=
  JValue.obj [("concept_name", JValue.str p.1), ("definition", JValue.str p.2)]

def questionOf (q : String) : JValue :=
  JValue.obj [("question_text", JValue.str q), ("difficulty_level", JValue.str "Medium"),
              ("solution", JValue.str "")]

/-- create_fallback_json of streamlined_education_pdf_to_json.py: scrape
definition-like and question-like sentences and formulas from the raw text,
cap them, and assemble the fallback document with its extraction marker. -/
def create_fallback_json (text : String) (metadata : List (String × JValue)) : JValue :=
  let l := text.data
  let n := l.length + 1
  let c1 := (scanFindall p1MatchAt n l).map conceptOfPair
  let c2 := (scanFindall p2MatchAt n l).map conceptOfPair
  let c3 := (scanFindall p3MatchAt n l).map
    (fun d => JValue.obj [("concept_name", JValue.str "Definition"), ("definition", JValue.str d)])
  let fs := (scanFindall p4MatchAt n l).map
    (fun p => JValue.obj [("concept_name", JValue.str "Formula"), ("definition", JValue.str ""),
                          ("formulas", JValue.arr [JValue.str (p.1 ++ " = " ++ p.2)])])
  let concepts := c1 ++ c2 ++ c3 ++ fs
  let q1 := (scanFindall p5MatchAt n l).map questionOf
  let q2 := (scanFindall p6MatchAt n l).map questionOf
  let questions := q1 ++ q2
  let summary := if 200 < l.length then String.mk (l.take 200) ++ "..." else text
  JValue.obj
    [("metadata", JValue.obj metadata),
     ("content", JValue.obj
        [("summary", JValue.str summary),
         ("key_concepts", JValue.arr (concepts.take 5)),
         ("practice_questions", JValue.arr (questions.take 3))]),
     ("related_topics", JValue.arr []),
     ("extraction_method", JValue.str "fallback")]

/-- dict.update: existing keys are overwritten in place, new keys appended. -/
def mergeDict (m add : List (String × JValue)) : List (String × JValue) :=
  add.foldl (fun acc kv => setOrReplace acc kv.1 kv.2) m

/-- The JSON-recovery portion of process_with_deepseek in
streamlined_education_pdf_to_json.py, as a function of the raw subprocess
output, the source text and the extracted metadata: extract and repair the
model output, merge the metadata into a successful parse, otherwise try the
content-subobject rescue, otherwise build the fallback document. Every raised
exception along the way is caught by the surrounding handlers, which return
the fallback document. -/
def process_with_deepseek (stdout text : String) (metadata : List (String × JValue)) : JValue :=
  let output := pyStrip stdout
  match fix_json_string_dyn (extract_json_from_text output) with
  | none => create_fallback_json text metadata
  | some fixed =>
    match json_loads fixed with
    | some (JValue.obj fields) =>
      match lookupKey fields "metadata" with
      | some (JValue.obj m) =>
          JValue.obj (setOrReplace fields "metadata" (JValue.obj (mergeDict m metadata)))
      | some _ => create_fallback_json text metadata
      | none => JValue.obj (fields ++ [("metadata", JValue.obj metadata)])
    | some _ => create_fallback_json text metadata
    | none =>
      match contentSearchAux fixed.data with
      | some cap =>
        match json_loads ("\x7b\"content\": " ++ String.mk cap ++ "\x7d") with
        | some (JValue.obj cfields) =>
            JValue.obj (setOrReplace cfields "metadata" (JValue.obj metadata))
        | some _ => create_fallback_json text metadata
        | none => create_fallback_json text metadata
      | none => create_fallback_json text metadata

theorem sim_comm (a b : String) :
    calculate_filename_similarity a b = calculate_filename_similarity b a := by
  unfold calculate_filename_similarity
  by_cases h1 : simTokens a = ∅ <;> by_cases h2 : simTokens b = ∅ <;>
    simp [h1, h2, Finset.inter_comm, Nat.max_comm]

theorem sim_nonneg (a b : String) : 0 ≤ calculate_filename_similarity a b := by
  simp only [calculate_filename_similarity]
  split
  · exact le_refl 0
  · rw [Rat.divInt_eq_div]
    apply div_nonneg <;> positivity

theorem sim_le_one (a b : String) : calculate_filename_similarity a b ≤ 1 := by
  simp only [calculate_filename_similarity]
  split
  case isTrue => exact zero_le_one
  case isFalse h =>
    push_neg at h
    rw [Rat.divInt_eq_div]
    have hA : (simTokens a).Nonempty := Finset.nonempty_iff_ne_empty.mpr h.1
    have hcard : 0 < max (simTokens a).card (simTokens b).card :=
      lt_of_lt_of_le (Finset.card_pos.mpr hA) (le_max_left _ _)
    have hle : (simTokens a ∩ simTokens b).card ≤ max (simTokens a).card (simTokens b).card :=
      le_trans (Finset.card_le_card Finset.inter_subset_left) (le_max_left _ _)
    rw [div_le_one (by exact_mod_cast hcard)]
    exact_mod_cast hle

theorem sim_self (f : String) (h : simTokens f ≠ ∅) :
    calculate_filename_similarity f f = 1 := by
  simp only [calculate_filename_similarity]
  rw [if_neg (by simp [h])]
  rw [Finset.inter_self, max_self, Rat.divInt_eq_div]
  have hc : (simTokens f).card ≠ 0 := by
    simp only [ne_eq, Finset.card_eq_zero]
    exact h
  exact div_self (by exact_mod_cast hc)

/-- C5: for every pair of filenames the similarity score is symmetric; being a
pure function of its two arguments, it is deterministic by construction. -/
theorem C5_similarity_symmetric (a b : String) :
    calculate_filename_similarity a b = calculate_filename_similarity b a := sim_comm a b

/-- C6: the similarity score is the size of the intersection of the two
normalized token sets divided by the size of the larger set, zero when either
set is empty, and always lies in the closed unit interval. -/
theorem C6_similarity_formula (a b : String) :
    calculate_filename_similarity a b =
      (if simTokens a = ∅ ∨ simTokens b = ∅ then 0
       else (((simTokens a ∩ simTokens b).card : ℚ) /
         ((max (simTokens a).card (simTokens b).card : ℕ) : ℚ))) ∧
    0 ≤ calculate_filename_similarity a b ∧ calculate_filename_similarity a b ≤ 1 := by
  refine ⟨?_, sim_nonneg a b, sim_le_one a b⟩
  simp only [calculate_filename_similarity]
  split
  · rfl
  · rw [Rat.divInt_eq_div]
    push_cast
    rfl

/-- C7 counterexample: the filename solution.pdf has the non-empty base name
solution, yet its self-similarity is not one, because the role-keyword
stripping empties its token set and the empty guard yields zero. -/
theorem C7_counterexample :
    splitextBase "solution.pdf" ≠ "" ∧
    calculate_filename_similarity "solution.pdf" "solution.pdf" ≠ 1 := ⟨by decide, by decide⟩

/-- C7 amended: self-similarity is one whenever the normalized token set of
the filename is non-empty (keyword stripping can empty it even for a
non-empty base name, in which case the score is zero). -/
theorem C7_self_similarity (f : String) (h : simTokens f ≠ ∅) :
    calculate_filename_similarity f f = 1 := sim_self f h

theorem C7_witness :
    simTokens "algebra.pdf" ≠ ∅ ∧
    calculate_filename_similarity "algebra.pdf" "algebra.pdf" = 1 :=
  ⟨by decide, C7_self_similarity "algebra.pdf" (by decide)⟩

/-- C4 counterexample: the pair of prelim filenames differing only in year and
role keyword does not score one. -/
theorem C4_counterexample :
    calculate_filename_similarity "2021_JC_Prelim_Qn.pdf" "2022_JC_Prelim_Ans.pdf" ≠ 1 := by
  decide

/-- C4 amended: calculate_filename_similarity strips role keywords but no year
tokens, and the word tokenizer keeps underscore-joined names as single
tokens, so the two prelim filenames normalize to distinct singleton token
sets and score zero. -/
theorem C4_no_year_stripping :
    simTokens "2021_JC_Prelim_Qn.pdf" = {"2021_jc_prelim"} ∧
    simTokens "2022_JC_Prelim_Ans.pdf" = {"2022_jc_prelim"} ∧
    calculate_filename_similarity "2021_JC_Prelim_Qn.pdf" "2022_JC_Prelim_Ans.pdf" = 0 :=
  ⟨by decide, by decide, by decide⟩

/-- C3 counterexample: no question keyword of quick_organize_files.py occurs
as a whole word in examine.pdf, yet its classifier accepts the file as a
question file, because it matches keywords as plain substrings. -/
theorem C3_counterexample :
    quick_question_keywords.all
        (fun k => !(reSearchWordKw k (lowerStr "examine.pdf").data)) = true ∧
    quick_is_question_file "examine.pdf" = true := ⟨by decide, by decide⟩

/-- C3 amended: keyword matching is case-insensitive in both classifier
families (classification depends only on the lowercased name), but only the
regex-based classifiers of organize_documents.py and
streamlined_education_pdf_to_json.py are word-boundary-anchored; the
substring-based classifier of quick_organize_files.py classifies examine.pdf
as a question file. -/
theorem C3_boundary_only_in_regex_classifiers :
    (∀ f g : String, lowerStr f = lowerStr g →
        quick_is_question_file f = quick_is_question_file g) ∧
    (∀ f g : String, lowerStr f = lowerStr g →
        is_question_file f = is_question_file g) ∧
    is_question_file "examine.pdf" = false ∧
    quick_is_question_file "examine.pdf" = true := by
  refine ⟨?_, ?_, by decide, by decide⟩
  · intro f g h
    unfold quick_is_question_file
    rw [h]
  · intro f g h
    unfold is_question_file
    rw [h]

theorem C3_witness :
    lowerStr "EXAM Paper.pdf" = lowerStr "exam paper.pdf" ∧
    quick_is_question_file "EXAM Paper.pdf" = quick_is_question_file "exam paper.pdf" :=
  ⟨by decide, (C3_boundary_only_in_regex_classifiers).1 "EXAM Paper.pdf" "exam paper.pdf" (by decide)⟩

/-- C8: the decision table of classify_document, first match winning in
priority order, with the fallthrough to the secondary patterns and finally
unknown. -/
theorem C8_decision_table (f : String) :
    (is_solution_file f = true ∧ is_question_file f = true →
        classify_document f = "combined_question_solution") ∧
    (is_solution_file f = true ∧ is_question_file f = false ∧ is_note_file f = true →
        classify_document f = "notes_with_solutions") ∧
    (is_solution_file f = false ∧ is_question_file f = true ∧ is_note_file f = true →
        classify_document f = "notes_with_questions") ∧
    (is_solution_file f = true ∧ is_question_file f = false ∧ is_note_file f = false →
        classify_document f = "solution") ∧
    (is_solution_file f = false ∧ is_question_file f = true ∧ is_note_file f = false →
        classify_document f = "question_paper") ∧
    (is_solution_file f = false ∧ is_question_file f = false ∧ is_note_file f = true →
        classify_document f = "standalone_note") ∧
    (is_solution_file f = false ∧ is_question_file f = false ∧ is_note_file f = false →
        classify_document f = classify_fallback f) ∧
    (is_solution_file f = false ∧ is_question_file f = false ∧ is_note_file f = false ∧
        od_pat_sol_after (lowerStr f).data = false ∧
        od_pat_no_sol_after (lowerStr f).data = false ∧
        od_pat_chapter_digit (lowerStr f).data = false ∧
        od_pat_tutor (lowerStr f).data = false →
        classify_document f = "unknown") := by
  refine ⟨?_, ?_, ?_, ?_, ?_, ?_, ?_, ?_⟩
  · rintro ⟨h1, h2⟩
    simp [classify_document, h1, h2]
  · rintro ⟨h1, h2, h3⟩
    simp [classify_document, h1, h2, h3]
  · rintro ⟨h1, h2, h3⟩
    simp [classify_document, h1, h2, h3]
  · rintro ⟨h1, h2, h3⟩
    simp [classify_document, h1, h2, h3]
  · rintro ⟨h1, h2, h3⟩
    simp [classify_document, h1, h2, h3]
  · rintro ⟨h1, h2, h3⟩
    simp [classify_document, h1, h2, h3]
  · rintro ⟨h1, h2, h3⟩
    simp [classify_document, h1, h2, h3]
  · rintro ⟨h1, h2, h3, h4, h5, h6, h7⟩
    simp [classify_document, classify_fallback, h1, h2, h3, h4, h5, h6, h7]

theorem C8_witness :
    (is_solution_file "exam solutions.pdf" = true ∧
     is_question_file "exam solutions.pdf" = true) ∧
    classify_document "exam solutions.pdf" = "combined_question_solution" :=
  ⟨⟨by decide, by decide⟩,
   (C8_decision_table "exam solutions.pdf").1 ⟨by decide, by decide⟩⟩

theorem hasKey_setOrReplace : ∀ (fs : List (String × JValue)) (k : String) (v : JValue),
    hasKey k (JValue.obj (setOrReplace fs k v)) = true
  | [], k, v => by simp [setOrReplace, hasKey]
  | (k2, v2) :: rest, k, v => by
    simp only [setOrReplace]
    split
    case isTrue h => simp [hasKey, h]
    case isFalse h =>
      have ih := hasKey_setOrReplace rest k v
      simp only [hasKey, List.any_cons, Bool.or_eq_true, decide_eq_true_eq] at ih ⊢
      exact Or.inr ih

theorem create_fallback_obj (t : String) (m : List (String × JValue)) :
    ∃ fields, create_fallback_json t m = JValue.obj fields ∧
      hasKey "metadata" (JValue.obj fields) = true :=
  ⟨_, rfl, by simp [hasKey]⟩

/-- C2 amended: the recovery path of process_with_deepseek is a total function
of the raw model output that always returns a JSON object containing the key
metadata; the content key is not guaranteed (it is present on the fallback and
content-rescue paths but can be absent when the repaired text parses to an
object without one). -/
theorem C2_total_with_metadata (stdout text : String) (metadata : List (String × JValue)) :
    ∃ fields,
      process_with_deepseek stdout text metadata = JValue.obj fields ∧
      hasKey "metadata" (JValue.obj fields) = true := by
  simp only [process_with_deepseek]
  repeat' split
  all_goals first
    | exact create_fallback_obj text metadata
    | exact ⟨_, rfl, hasKey_setOrReplace _ _ _⟩
    | exact ⟨_, rfl, by simp [hasKey]⟩

/-- C2 counterexample: on a model output containing no JSON at all, the
recovery still succeeds and returns an object with the metadata key, but that
object has no content key, so the recovered value does not always carry both
keys. -/
theorem C2_counterexample :
    hasKey "metadata" (process_with_deepseek "no json here" "sample text"
        [("subject", JValue.str "Mathematics")]) = true ∧
    hasKey "content" (process_with_deepseek "no json here" "sample text"
        [("subject", JValue.str "Mathematics")]) = false := ⟨by rfl, by rfl⟩

theorem strictB_not_both (f : String) (h1 : strictSolB f = true) (h2 : strictQB f = true) :
    False := by
  simp only [strictSolB, strictQB, Bool.and_eq_true, Bool.not_eq_true'] at h1 h2
  rw [h1.2] at h2
  exact absurd h2.1 (by simp)

theorem flatElems_append (a b : List (String × String)) :
    flatElems (a ++ b) = flatElems a ++ flatElems b := by
  induction a with
  | nil => rfl
  | cons p ps ih => simp [flatElems, ih]

theorem findBestAux_none_eq (t : ℚ) (sol : String) (paired : List String) :
    ∀ (qs : List String) (acc : Option String × ℚ),
      (findBestAux t sol paired qs acc).1 = none → findBestAux t sol paired qs acc = acc := by
  intro qs
  induction qs with
  | nil => intro acc _; rfl
  | cons q qs ih =>
    intro acc h
    simp only [findBestAux] at h ⊢
    have h2 := ih _ h
    rw [h2] at h ⊢
    by_cases hq : q ∈ paired
    · simp [hq]
    · simp only [if_neg hq] at h ⊢
      by_cases hc : t < calculate_filename_similarity (basename sol) (basename q) ∧
          acc.2 < calculate_filename_similarity (basename sol) (basename q)
      · rw [if_pos hc] at h
        simp at h
      · rw [if_neg hc]

theorem findBestAux_none_sim (t : ℚ) (sol : String) (paired : List String) :
    ∀ (qs : List String) (acc : Option String × ℚ),
      (findBestAux t sol paired qs acc).1 = none →
      ∀ q ∈ qs, q ∉ paired →
        ¬(t < calculate_filename_similarity (basename sol) (basename q) ∧
          acc.2 < calculate_filename_similarity (basename sol) (basename q)) := by
  intro qs
  induction qs with
  | nil => intro acc _ q hq; simp at hq
  | cons q0 qs ih =>
    intro acc h q hq hqnp
    have hfull := findBestAux_none_eq t sol paired (q0 :: qs) acc h
    simp only [findBestAux] at h hfull
    have hstep := findBestAux_none_eq t sol paired qs _ h
    have hacc := hfull
    rw [hstep] at hacc
    rcases List.mem_cons.mp hq with rfl | htail
    · rintro ⟨hlt, hgt⟩
      have hsn := h
      rw [hstep] at hsn
      rw [if_neg hqnp, if_pos ⟨hlt, hgt⟩] at hsn
      simp at hsn
    · intro hcond
      have h3 := ih _ h q htail hqnp
      rw [hacc] at h3
      exact h3 hcond

theorem findBestAux_some_mem (t : ℚ) (sol : String) (paired : List String) :
    ∀ (qs : List String) (acc : Option String × ℚ) (bm : String) (sc : ℚ),
      findBestAux t sol paired qs acc = (some bm, sc) →
      acc.1 = some bm ∨ (bm ∈ qs ∧ bm ∉ paired) := by
  intro qs
  induction qs with
  | nil =>
    intro acc bm sc h
    left
    rw [show acc = (some bm, sc) from h]
  | cons q0 qs ih =>
    intro acc bm sc h
    simp only [findBestAux] at h
    rcases ih _ bm sc h with hl | hr
    · by_cases hq : q0 ∈ paired
      · rw [if_pos hq] at hl
        left
        exact hl
      · rw [if_neg hq] at hl
        by_cases hc : t < calculate_filename_similarity (basename sol) (basename q0) ∧
            acc.2 < calculate_filename_similarity (basename sol) (basename q0)
        · rw [if_pos hc] at hl
          simp only at hl
          right
          refine ⟨?_, ?_⟩
          · rw [← Option.some_inj.mp hl]
            exact List.mem_cons_self q0 qs
          · rw [← Option.some_inj.mp hl]
            exact hq
        · rw [if_neg hc] at hl
          left
          exact hl
    · right
      exact ⟨List.mem_cons_of_mem _ hr.1, hr.2⟩

theorem pass1_paired_mono (t : ℚ) (qf : List String) :
    ∀ (sols : List String) (st : PairState) (f : String),
      f ∈ st.paired → f ∈ (pass1 t qf sols st).paired := by
  intro sols
  induction sols with
  | nil => intro st f h; exact h
  | cons sol sols ih =>
    intro st f h
    simp only [pass1]
    apply ih
    by_cases hs : sol ∈ st.paired
    · rw [if_pos hs]; exact h
    · rw [if_neg hs]
      rcases h2 : findBestAux t sol st.paired qf (none, 0) with ⟨o, sc⟩
      cases o with
      | some bm => simp only; right; right; exact h
      | none => exact h

theorem pass1_unmatched (t : ℚ) (qf : List String) :
    ∀ (sols : List String) (st : PairState) (sol : String),
      sol ∈ sols → sol ∉ (pass1 t qf sols st).paired →
      ∀ q ∈ qf, q ∉ (pass1 t qf sols st).paired →
        ¬(t < calculate_filename_similarity (basename sol) (basename q) ∧
          0 < calculate_filename_similarity (basename sol) (basename q)) := by
  intro sols
  induction sols with
  | nil => intro st sol h; simp at h
  | cons s0 sols ih =>
    intro st sol hmem hnp q hq hqnp
    simp only [pass1] at hnp hqnp
    rcases List.mem_cons.mp hmem with rfl | htail
    · by_cases hs : sol ∈ st.paired
      · exfalso
        apply hnp
        apply pass1_paired_mono
        rw [if_pos hs]
        exact hs
      · rcases h2 : findBestAux t sol st.paired qf (none, 0) with ⟨o, sc⟩
        cases o with
        | some bm =>
          exfalso
          apply hnp
          apply pass1_paired_mono
          rw [if_neg hs, h2]
          simp only
          exact List.mem_cons_self _ _
        | none =>
          have hq2 : q ∉ st.paired := by
            intro hmem2
            apply hqnp
            apply pass1_paired_mono
            rw [if_neg hs, h2]
            exact hmem2
          have := findBestAux_none_sim t sol st.paired qf (none, 0) (by rw [h2]) q hq hq2
          simpa using this
    · exact ih _ sol htail hnp q hq hqnp

theorem pass2Inner_paired_mono (t : ℚ) (f1 : String) :
    ∀ (l : List String) (st : PairState) (f : String),
      f ∈ st.paired → f ∈ (pass2Inner t f1 l st).paired := by
  intro l
  induction l with
  | nil => intro st f h; exact h
  | cons f2 l ih =>
    intro st f h
    simp only [pass2Inner]
    apply ih
    by_cases hp : f2 ∈ st.paired
    · rw [if_pos hp]; exact h
    · rw [if_neg hp]
      by_cases hlt : t < calculate_filename_similarity (basename f1) (basename f2)
      · rw [if_pos hlt]
        by_cases hc1 : strictSolB f1 = true ∧ strictQB f2 = true
        · rw [if_pos hc1]; right; right; exact h
        · rw [if_neg hc1]
          by_cases hc2 : strictQB f1 = true ∧ strictSolB f2 = true
          · rw [if_pos hc2]; right; right; exact h
          · rw [if_neg hc2]; exact h
      · rw [if_neg hlt]; exact h

theorem pass2_paired_mono (t : ℚ) :
    ∀ (l : List String) (st : PairState) (f : String),
      f ∈ st.paired → f ∈ (pass2 t l st).paired := by
  intro l
  induction l with
  | nil => intro st f h; exact h
  | cons f1 l ih =>
    intro st f h
    simp only [pass2]
    by_cases hp : f1 ∈ st.paired
    · rw [if_pos hp]; exact ih st f h
    · rw [if_neg hp]
      exact ih _ f (pass2Inner_paired_mono t f1 l st f h)

theorem pass2Inner_unchanged (t : ℚ) (f1 : String) :
    ∀ (l : List String) (st : PairState),
      (∀ f2 ∈ l, f2 ∉ st.paired →
        t < calculate_filename_similarity (basename f1) (basename f2) →
        ¬(strictSolB f1 = true ∧ strictQB f2 = true) ∧
        ¬(strictQB f1 = true ∧ strictSolB f2 = true)) →
      pass2Inner t f1 l st = st := by
  intro l
  induction l with
  | nil => intro st _; rfl
  | cons f2 l ih =>
    intro st H
    simp only [pass2Inner]
    have hstep : (if f2 ∈ st.paired then st
        else if t < calculate_filename_similarity (basename f1) (basename f2) then
          if strictSolB f1 = true ∧ strictQB f2 = true then
            { pairs := st.pairs ++ [(f1, f2)], paired := f1 :: f2 :: st.paired }
          else if strictQB f1 = true ∧ strictSolB f2 = true then
            { pairs := st.pairs ++ [(f2, f1)], paired := f1 :: f2 :: st.paired }
          else st
        else st) = st := by
      by_cases hp : f2 ∈ st.paired
      · rw [if_pos hp]
      · rw [if_neg hp]
        by_cases hlt : t < calculate_filename_similarity (basename f1) (basename f2)
        · rcases H f2 (List.mem_cons_self _ _) hp hlt with ⟨h1, h2⟩
          rw [if_pos hlt, if_neg h1, if_neg h2]
        · rw [if_neg hlt]
    rw [hstep]
    exact ih st (fun f3 hm => H f3 (List.mem_cons_of_mem _ hm))

theorem pass2_unchanged (t : ℚ) :
    ∀ (l : List String) (st : PairState),
      (∀ f1 ∈ l, ∀ f2 ∈ l, f1 ∉ st.paired → f2 ∉ st.paired →
        t < calculate_filename_similarity (basename f1) (basename f2) →
        ¬(strictSolB f1 = true ∧ strictQB f2 = true) ∧
        ¬(strictQB f1 = true ∧ strictSolB f2 = true)) →
      pass2 t l st = st := by
  intro l
  induction l with
  | nil => intro st _; rfl
  | cons f1 l ih =>
    intro st H
    simp only [pass2]
    by_cases hp : f1 ∈ st.paired
    · rw [if_pos hp]
      exact ih st (fun a ha b hb => H a (List.mem_cons_of_mem _ ha) b (List.mem_cons_of_mem _ hb))
    · rw [if_neg hp]
      have hin : pass2Inner t f1 l st = st :=
        pass2Inner_unchanged t f1 l st
          (fun f2 hm hnp hlt =>
            H f1 (List.mem_cons_self _ _) f2 (List.mem_cons_of_mem _ hm) hp hnp hlt)
      rw [hin]
      exact ih st (fun a ha b hb => H a (List.mem_cons_of_mem _ ha) b (List.mem_cons_of_mem _ hb))

theorem pass1_inv (t : ℚ) (file_list qf : List String)
    (hqf : ∀ q ∈ qf, q ∈ file_list ∧ strictQB q = true) :
    ∀ (sols : List String) (st : PairState),
      (∀ s ∈ sols, s ∈ file_list ∧ strictSolB s = true) →
      PairInv file_list st ∧ (flatElems st.pairs).Nodup →
      PairInv file_list (pass1 t qf sols st) ∧
        (flatElems (pass1 t qf sols st).pairs).Nodup := by
  intro sols
  induction sols with
  | nil => intro st _ h; exact h
  | cons sol sols ih =>
    intro st hs hinv
    simp only [pass1]
    apply ih _ (fun s hm => hs s (List.mem_cons_of_mem _ hm))
    by_cases hp : sol ∈ st.paired
    · rw [if_pos hp]; exact hinv
    · rw [if_neg hp]
      rcases h2 : findBestAux t sol st.paired qf (none, 0) with ⟨o, sc⟩
      cases o with
      | none => exact hinv
      | some bm =>
        simp only
        rcases findBestAux_some_mem t sol st.paired qf (none, 0) bm sc h2 with habs | ⟨hbmem, hbnp⟩
        · simp at habs
        obtain ⟨hbfl, hbq⟩ := hqf bm hbmem
        obtain ⟨hsfl, hss⟩ := hs sol (List.mem_cons_self _ _)
        obtain ⟨⟨hiff, hroles⟩, hnodup⟩ := hinv
        have hsolflat : sol ∉ flatElems st.pairs := fun hx => hp ((hiff sol).mpr hx)
        have hbmflat : bm ∉ flatElems st.pairs := fun hx => hbnp ((hiff bm).mpr hx)
        have hne : sol ≠ bm := fun he => strictB_not_both sol hss (he ▸ hbq)
        refine ⟨⟨?_, ?_⟩, ?_⟩
        · intro f
          simp only [flatElems_append, flatElems, List.mem_cons, List.mem_append,
            List.not_mem_nil, or_false]
          rw [hiff f]
          tauto
        · intro p hp2
          rcases List.mem_append.mp hp2 with hold | hnew
          · exact hroles p hold
          · simp only [List.mem_singleton] at hnew
            subst hnew
            exact ⟨hsfl, hbfl, hss, hbq⟩
        · rw [flatElems_append]
          simp only [flatElems, List.not_mem_nil]
          rw [List.nodup_append]
          refine ⟨hnodup, by simp [hne], ?_⟩
          intro x hx
          simp only [List.mem_cons, List.not_mem_nil, or_false]
          rintro (rfl | rfl)
          · exact hsolflat hx
          · exact hbmflat hx

theorem pass2Inner_inv (t : ℚ) (file_list : List String) (f1 : String) (hf1 : f1 ∈ file_list) :
    ∀ (l : List String) (st : PairState),
      (∀ x ∈ l, x ∈ file_list) → PairInv file_list st →
      PairInv file_list (pass2Inner t f1 l st) := by
  intro l
  induction l with
  | nil => intro st _ h; exact h
  | cons f2 l ih =>
    intro st hl hinv
    simp only [pass2Inner]
    apply ih _ (fun x hm => hl x (List.mem_cons_of_mem _ hm))
    by_cases hp : f2 ∈ st.paired
    · rw [if_pos hp]; exact hinv
    · rw [if_neg hp]
      by_cases hlt : t < calculate_filename_similarity (basename f1) (basename f2)
      · rw [if_pos hlt]
        obtain ⟨hiff, hroles⟩ := hinv
        by_cases hc1 : strictSolB f1 = true ∧ strictQB f2 = true
        · rw [if_pos hc1]
          refine ⟨?_, ?_⟩
          · intro f
            simp only [flatElems_append, flatElems, List.mem_cons, List.mem_append,
              List.not_mem_nil, or_false]
            rw [hiff f]
            tauto
          · intro p hp2
            rcases List.mem_append.mp hp2 with hold | hnew
            · exact hroles p hold
            · simp only [List.mem_singleton] at hnew
              subst hnew
              exact ⟨hf1, hl f2 (List.mem_cons_self _ _), hc1.1, hc1.2⟩
        · rw [if_neg hc1]
          by_cases hc2 : strictQB f1 = true ∧ strictSolB f2 = true
          · rw [if_pos hc2]
            refine ⟨?_, ?_⟩
            · intro f
              simp only [flatElems_append, flatElems, List.mem_cons, List.mem_append,
                List.not_mem_nil, or_false]
              rw [hiff f]
              tauto
            · intro p hp2
              rcases List.mem_append.mp hp2 with hold | hnew
              · exact hroles p hold
              · simp only [List.mem_singleton] at hnew
                subst hnew
                exact ⟨hl f2 (List.mem_cons_self _ _), hf1, hc2.2, hc2.1⟩
          · rw [if_neg hc2]
            exact ⟨hiff, hroles⟩
      · rw [if_neg hlt]
        exact hinv

theorem pass2_inv (t : ℚ) (file_list : List String) :
    ∀ (l : List String) (st : PairState),
      (∀ x ∈ l, x ∈ file_list) → PairInv file_list st →
      PairInv file_list (pass2 t l st) := by
  intro l
  induction l with
  | nil => intro st _ h; exact h
  | cons f1 l ih =>
    intro st hl hinv
    simp only [pass2]
    by_cases hp : f1 ∈ st.paired
    · rw [if_pos hp]
      exact ih st (fun x hm => hl x (List.mem_cons_of_mem _ hm)) hinv
    · rw [if_neg hp]
      exact ih _ (fun x hm => hl x (List.mem_cons_of_mem _ hm))
        (pass2Inner_inv t file_list f1 (hl f1 (List.mem_cons_self _ _)) l st
          (fun x hm => hl x (List.mem_cons_of_mem _ hm)) hinv)

theorem fqspSt1_inv (file_list : List String) (t : ℚ) :
    PairInv file_list (fqspSt1 file_list t) ∧ (flatElems (fqspSt1 file_list t).pairs).Nodup := by
  apply pass1_inv
  · intro q hq
    exact ⟨(List.mem_filter.mp hq).1, (List.mem_filter.mp hq).2⟩
  · intro s hs
    exact ⟨(List.mem_filter.mp hs).1, (List.mem_filter.mp hs).2⟩
  · refine ⟨⟨?_, ?_⟩, ?_⟩
    · intro f
      simp [flatElems]
    · intro p hp
      simp at hp
    · simp [flatElems]

theorem fqspRemaining_spec (file_list : List String) (t : ℚ) (f : String) :
    f ∈ fqspRemaining file_list t ↔ f ∈ file_list ∧ f ∉ (fqspSt1 file_list t).paired := by
  simp [fqspRemaining, List.mem_filter]

theorem fqspSt2_inv (file_list : List String) (t : ℚ) :
    PairInv file_list (fqspSt2 file_list t) :=
  pass2_inv t file_list _ _
    (fun x hx => ((fqspRemaining_spec file_list t x).mp hx).1)
    (fqspSt1_inv file_list t).1

theorem fqsp_dead (file_list : List String) (t : ℚ) (ht : 0 ≤ t) :
    fqspSt2 file_list t = fqspSt1 file_list t := by
  apply pass2_unchanged
  intro f1 h1 f2 h2m hnp1 hnp2 hlt
  obtain ⟨h1fl, h1np⟩ := (fqspRemaining_spec file_list t f1).mp h1
  obtain ⟨h2fl, h2np⟩ := (fqspRemaining_spec file_list t f2).mp h2m
  simp only [fqspSt1] at h1np h2np
  constructor
  · rintro ⟨hs1, hq2⟩
    have hf1m : f1 ∈ file_list.filter (fun f => strictSolB f) := List.mem_filter.mpr ⟨h1fl, hs1⟩
    have hf2m : f2 ∈ file_list.filter (fun f => strictQB f) := List.mem_filter.mpr ⟨h2fl, hq2⟩
    exact pass1_unmatched t _ _ ⟨[], []⟩ f1 hf1m h1np f2 hf2m h2np
      ⟨hlt, lt_of_le_of_lt ht hlt⟩
  · rintro ⟨hq1, hs2⟩
    have hf2m : f2 ∈ file_list.filter (fun f => strictSolB f) := List.mem_filter.mpr ⟨h2fl, hs2⟩
    have hf1m : f1 ∈ file_list.filter (fun f => strictQB f) := List.mem_filter.mpr ⟨h1fl, hq1⟩
    rw [sim_comm (basename f1) (basename f2)] at hlt
    exact pass1_unmatched t _ _ ⟨[], []⟩ f2 hf2m h2np f1 hf1m h1np
      ⟨hlt, lt_of_le_of_lt ht hlt⟩

/-- C1 amended: for every input list and every threshold, the pairing result
set-partitions the input (a file is mentioned by the pairs exactly when it is
not unpaired, and pairs only mention input files); moreover for every
non-negative threshold no file is mentioned twice across the pairs. For a
negative threshold the second pass can emit one file into two pairs. -/
theorem C1_partition (file_list : List String) (t : ℚ) :
    (∀ p ∈ (find_question_solution_pairs file_list t).1,
        p.1 ∈ file_list ∧ p.2 ∈ file_list) ∧
    (∀ f ∈ (find_question_solution_pairs file_list t).2, f ∈ file_list) ∧
    (∀ f ∈ file_list,
        (f ∈ flatElems (find_question_solution_pairs file_list t).1 ↔
          f ∉ (find_question_solution_pairs file_list t).2)) ∧
    (0 ≤ t → (flatElems (find_question_solution_pairs file_list t).1).Nodup) := by
  have hinv := fqspSt2_inv file_list t
  refine ⟨?_, ?_, ?_, ?_⟩
  · intro p hp
    have h := hinv.2 p hp
    exact ⟨h.1, h.2.1⟩
  · intro f hf
    simp only [find_question_solution_pairs, List.mem_filter] at hf
    exact hf.1
  · intro f hf
    simp only [find_question_solution_pairs, List.mem_filter, Bool.not_eq_true',
      decide_eq_false_iff_not]
    rw [← hinv.1 f]
    tauto
  · intro ht
    show (flatElems (fqspSt2 file_list t).pairs).Nodup
    rw [fqsp_dead file_list t ht]
    exact (fqspSt1_inv file_list t).2

/-- C1 counterexample: with the negative threshold minus one, the second pass
pairs the same solution file with two different question files, so a file can
appear in more than one pair and the result is not a partition for every
threshold. -/
theorem C1_counterexample :
    (find_question_solution_pairs ["alpha-sol.pdf", "beta-qn.pdf", "gamma-qn.pdf"] (-1)).1 =
      [("alpha-sol.pdf", "beta-qn.pdf"), ("alpha-sol.pdf", "gamma-qn.pdf")] := by decide

theorem C1_witness :
    ((0 : ℚ) ≤ Rat.divInt 7 10 ∧
      (flatElems
        (find_question_solution_pairs ["paper one answers.pdf", "paper one questions.pdf"]
          (Rat.divInt 7 10)).1).Nodup) ∧
    (("paper one answers.pdf" ∈
        (["paper one answers.pdf", "paper one questions.pdf"] : List String)) ∧
      (("paper one answers.pdf" ∈
          flatElems
            (find_question_solution_pairs ["paper one answers.pdf", "paper one questions.pdf"]
              (Rat.divInt 7 10)).1) ↔
        ("paper one answers.pdf" ∉
          (find_question_solution_pairs ["paper one answers.pdf", "paper one questions.pdf"]
            (Rat.divInt 7 10)).2))) :=
  ⟨⟨by decide,
    (C1_partition ["paper one answers.pdf", "paper one questions.pdf"] (Rat.divInt 7 10)).2.2.2
      (by decide)⟩,
   ⟨by decide,
    (C1_partition ["paper one answers.pdf", "paper one questions.pdf"] (Rat.divInt 7 10)).2.2.1
      "paper one answers.pdf" (by decide)⟩⟩

/-- C10: every pair emitted by find_question_solution_pairs, from either pass
and at every threshold, has a strict solution file first and a strict
question file second (the orientation process_batch relies on when unpacking
solution_path, question_path). -/
theorem C10_pairs_solution_first (file_list : List String) (t : ℚ) :
    ∀ p ∈ (find_question_solution_pairs file_list t).1,
      is_solution_file (basename p.1) = true ∧ is_question_file (basename p.1) = false ∧
      is_question_file (basename p.2) = true ∧ is_solution_file (basename p.2) = false := by
  intro p hp
  have h := (fqspSt2_inv file_list t).2 p hp
  have hs := h.2.2.1
  have hq := h.2.2.2
  simp only [strictSolB, Bool.and_eq_true, Bool.not_eq_true'] at hs
  simp only [strictQB, Bool.and_eq_true, Bool.not_eq_true'] at hq
  exact ⟨hs.1, hs.2, hq.1, hq.2⟩

theorem C10_witness :
    (("paper one answers.pdf", "paper one questions.pdf") ∈
        (find_question_solution_pairs ["paper one answers.pdf", "paper one questions.pdf"]
          (Rat.divInt 7 10)).1) ∧
    (is_solution_file (basename "paper one answers.pdf") = true ∧
      is_question_file (basename "paper one answers.pdf") = false ∧
      is_question_file (basename "paper one questions.pdf") = true ∧
      is_solution_file (basename "paper one questions.pdf") = false) :=
  ⟨by decide,
   C10_pairs_solution_first ["paper one answers.pdf", "paper one questions.pdf"]
     (Rat.divInt 7 10) ("paper one answers.pdf", "paper one questions.pdf") (by decide)⟩

theorem findBestAux_id_of_no (t : ℚ) (sol : String) (paired : List String)
    (h : ∀ q : String, ¬(t < calculate_filename_similarity (basename sol) (basename q))) :
    ∀ (qs : List String) (acc : Option String × ℚ), findBestAux t sol paired qs acc = acc := by
  intro qs
  induction qs with
  | nil => intro acc; rfl
  | cons q qs ih =>
    intro acc
    simp only [findBestAux]
    rw [ih]
    by_cases hq : q ∈ paired
    · rw [if_pos hq]
    · rw [if_neg hq, if_neg (fun hc => h q hc.1)]

theorem pass1_id_of_no (t : ℚ) (qf : List String)
    (h : ∀ sol q : String, ¬(t < calculate_filename_similarity (basename sol) (basename q))) :
    ∀ (sols : List String) (st : PairState), pass1 t qf sols st = st := by
  intro sols
  induction sols with
  | nil => intro st; rfl
  | cons sol sols ih =>
    intro st
    simp only [pass1]
    rw [findBestAux_id_of_no t sol st.paired (h sol) qf (none, 0)]
    rw [ih]
    by_cases hs : sol ∈ st.paired
    · rw [if_pos hs]
    · rw [if_neg hs]

/-- C9 amended: the pairing operation performs no validation of its threshold:
any rational threshold is accepted, and for every threshold of at least one
the strict comparison can never succeed, so the operation returns normally
with no pairs and every file unpaired instead of failing. -/
theorem C9_no_validation (file_list : List String) (t : ℚ) (ht : 1 ≤ t) :
    find_question_solution_pairs file_list t = ([], file_list) := by
  have hno : ∀ a b : String, ¬(t < calculate_filename_similarity a b) :=
    fun a b => not_lt.mpr (le_trans (sim_le_one a b) ht)
  have hst1 : fqspSt1 file_list t = ⟨[], []⟩ :=
    pass1_id_of_no t _ (fun sol q => hno _ _) _ _
  have hrem : fqspRemaining file_list t = file_list := by
    rw [fqspRemaining, hst1]
    apply List.filter_eq_self.mpr
    intro a _
    simp
  have hst2 : fqspSt2 file_list t = ⟨[], []⟩ := by
    rw [fqspSt2, hrem, hst1]
    exact pass2_unchanged t file_list ⟨[], []⟩
      (fun f1 _ f2 _ _ _ hlt => absurd hlt (hno _ _))
  rw [find_question_solution_pairs, hst2]
  refine Prod.ext rfl ?_
  apply List.filter_eq_self.mpr
  intro a _
  simp

/-- C9 counterexample: with the out-of-range threshold two, the operation does
not fail with any invalid-argument error; it silently returns a normal result
with every file unpaired. Neither script validates the threshold, and
quick_organize_files.py does not even forward its CLI threshold to the
pairing function. -/
theorem C9_counterexample :
    find_question_solution_pairs ["paper one answers.pdf", "paper one questions.pdf"] 2 =
      ([], ["paper one answers.pdf", "paper one questions.pdf"]) := by decide

theorem C9_witness :
    (1 : ℚ) ≤ 3 ∧
    find_question_solution_pairs ["a-ans.pdf", "a-qn.pdf"] 3 = ([], ["a-ans.pdf", "a-qn.pdf"]) :=
  ⟨by decide, C9_no_validation ["a-ans.pdf", "a-qn.pdf"] 3 (by decide)⟩
